import Mathlib

/-!
Verification of the date-bucketing, normalization and grid-layout core of
`git-cal-rs` (`src/main.rs`), a terminal commit heat-map renderer.

The program's observable datetime values are embedded as follows.

* A civil (local) calendar date is a `Date` record `⟨year, month, day⟩`
  (chrono: `year()` is an `i32`, `month()`/`day()` are 1-based `u32`).
* A local date `dt` is identified with its day number `toOrdinal dt` in the
  proleptic Gregorian calendar, with `toOrdinal ⟨1,1,1⟩ = 1` (0001-01-01,
  a Monday).  This is the timeline chrono's calendar arithmetic computes on.
* A local datetime (chrono `DateTime<Local>`) is identified with its count of
  local seconds: the datetime on day `dt` at `s` seconds after midnight is the
  integer `toOrdinal dt * 86400 + s`.  Durations between two datetimes are
  exactly differences of these counts.  The model uses a fixed UTC offset (no
  DST transitions), matching the spec's non-goal "does not handle time zones
  beyond local time of the invoking machine".
* `Duration::num_days` is `i64` division of seconds by 86400, which truncates
  toward zero: `Int.tdiv`.
* chrono's `Local.ymd(y, m, d)` panics on an invalid civil date; fallible
  functions return `Option`, `none` standing for the panic.
-/

/-- Gregorian leap-year predicate, as chrono computes it
(`y % 4 == 0 && (y % 100 != 0 || y % 400 == 0)`).  Lean's `%` on `Int` is
`Int.emod`, which agrees with Rust's `i32 %` on the non-negative years in
scope. -/
def isLeap (y : Int) : Bool :=
  y % 4 == 0 && (y % 100 != 0 || y % 400 == 0)

/-- Number of days of month `m` (1-based) in year `y` of the civil calendar. -/
def daysInMonth (y : Int) (m : Nat) : Nat :=
  match m with
  | 1 => 31 | 2 => if isLeap y then 29 else 28 | 3 => 31 | 4 => 30
  | 5 => 31 | 6 => 30 | 7 => 31 | 8 => 31 | 9 => 30 | 10 => 31
  | 11 => 30 | 12 => 31 | _ => 0

/-- Days of year `y` strictly before the first day of month `m` (1-based). -/
def daysBeforeMonth (leap : Bool) (m : Nat) : Nat :=
  let base : Nat :=
    match m with
    | 1 => 0 | 2 => 31 | 3 => 59 | 4 => 90 | 5 => 120 | 6 => 151 | 7 => 181
    | 8 => 212 | 9 => 243 | 10 => 273 | 11 => 304 | 12 => 334 | _ => 0
  if leap = true ∧ 3 ≤ m then base + 1 else base

/-- A civil (local) calendar date: chrono's `(year(), month(), day())`. -/
structure Date where
  y : Int
  m : Nat
  d : Nat
deriving DecidableEq, Repr

/-- The date is a valid civil date (chrono `ymd` succeeds exactly on these). -/
def validDate (dt : Date) : Prop :=
  1 ≤ dt.m ∧ dt.m ≤ 12 ∧ 1 ≤ dt.d ∧ dt.d ≤ daysInMonth dt.y dt.m

instance (dt : Date) : Decidable (validDate dt) := by
  unfold validDate; infer_instance

/-- Days strictly before January 1 of year `y` in the proleptic Gregorian
calendar (the `/` here is `Int.ediv`, i.e. mathematical floor division, which
is what the calendar's leap-day count requires and agrees with Rust's division
on the non-negative values in scope). -/
def daysBeforeYear (y : Int) : Int :=
  365 * (y - 1) + (y - 1) / 4 - (y - 1) / 100 + (y - 1) / 400

/-- Proleptic-Gregorian day number of a civil date; `⟨1,1,1⟩ ↦ 1`.
Day number 1 (0001-01-01) is a Monday. -/
def toOrdinal (dt : Date) : Int :=
  daysBeforeYear dt.y + (daysBeforeMonth (isLeap dt.y) dt.m : Int) + (dt.d : Int)

/-- chrono's `date.weekday() as i64`: 0 = Monday, …, 6 = Sunday
(the discriminant of `chrono::Weekday`). -/
def weekdayNum (dt : Date) : Int := (toOrdinal dt - 1) % 7

/-- The week-day index under the spec's convention that the week begins on
Sunday at index 0 (so 0 = Sunday, 1 = Monday, …, 6 = Saturday). -/
def spec_weekday_sun (dt : Date) : Int := toOrdinal dt % 7

/-- chrono `Local.ymd(y, m, d)`: `some` on a valid civil date, `none` for the
library's panic on an invalid one. -/
def ymd (y : Int) (m d : Nat) : Option Date :=
  if validDate ⟨y, m, d⟩ then some ⟨y, m, d⟩ else none

/-- The civil date of the previous calendar day. -/
def prevDay (dt : Date) : Date :=
  if 2 ≤ dt.d then ⟨dt.y, dt.m, dt.d - 1⟩
  else if 2 ≤ dt.m then ⟨dt.y, dt.m - 1, daysInMonth dt.y (dt.m - 1)⟩
  else ⟨dt.y - 1, 12, 31⟩

/-- Subtracting `k` days from a civil date (chrono's
`date - Duration::days(k)` lands on this civil date under a fixed offset). -/
def subDays (dt : Date) : Nat → Date
  | 0 => dt
  | k + 1 => subDays (prevDay dt) k

/-- Embedding of `first_day` (src/main.rs:21-27): take today's date one year
back with `Local.ymd(year-1, month, day)` (panics — `none` — if that civil
date does not exist, e.g. on Feb 29), then subtract `weekday() as i64 + 1`
days.  The result is a midnight datetime; we return its civil date.  `today`
is the injected current local date (`Local::now()`). -/
def first_day (today : Date) : Option Date :=
  match ymd (today.y - 1) today.m today.d with
  | none => none
  | some oya => some (subDays oya ((weekdayNum oya).toNat + 1))

/-- Seconds count of the datetime at midnight of day `dt` (the value of
`first_day`'s result as an instant). -/
def firstSec (dt : Date) : Int := toOrdinal dt * 86400

/-- Seconds count of `Local.ymd(today).and_hms(23, 59, 59)`
(src/main.rs:67-69). -/
def lastSec (today : Date) : Int := toOrdinal today * 86400 + 86399

/-- The `len` of src/main.rs:70: `last.signed_duration_since(first).num_days()`
with `first = first_day()` and `last = today 23:59:59`; `num_days` is `i64`
(truncating) division of the seconds by 86400. -/
def bucket_len (today st : Date) : Int :=
  Int.tdiv (lastSec today - firstSec st) 86400

/-- One iteration of the bucket loop (src/main.rs:73-80) over accumulator
`ret`: `diff = last.signed_duration_since(day).num_days()`; skip the commit if
`diff >= len`; otherwise `ret[(len - diff) as usize] += 1`.  A negative i64
`len - diff` cast `as usize` wraps to a huge value, so any index outside
`0 .. ret.len() - 1` is the out-of-bounds panic, modeled as `none` (which then
propagates). -/
def bucketStep (lastS len : Int) (acc : Option (List Int)) (day : Int) :
    Option (List Int) :=
  match acc with
  | none => none
  | some ret =>
    let diff := Int.tdiv (lastS - day) 86400
    if len ≤ diff then some ret
    else if 0 ≤ len - diff ∧ (len - diff).toNat < ret.length then
      some (ret.set (len - diff).toNat (ret.getD (len - diff).toNat 0 + 1))
    else none

/-- Embedding of `count_commits_per_day` (src/main.rs:64-83).  The current
local datetime is injected once as `today` (the source reads `Local::now()` in
both `first_day` and here; the spec fixes a single captured now).  Commit
datetimes are their local-seconds counts.  Buckets are the mathematical values
of the `i32` counters (no commit list in scope approaches `i32` overflow).
`none` is a panic (of `first_day`, or an out-of-bounds index in the loop). -/
def count_commits_per_day (today : Date) (commit_days : List Int) :
    Option (List Int) :=
  match first_day today with
  | none => none
  | some first =>
    let len := Int.tdiv (lastSec today - firstSec first) 86400
    commit_days.foldl (bucketStep (lastSec today) len)
      (some (List.replicate (len + 1).toNat 0))

/-- The five intensity levels (`CommitFreq`, src/main.rs:12-19). -/
inductive CommitFreq
  | No
  | Low
  | Mid
  | High
  | VeryHigh
deriving DecidableEq, Repr

/-- Classification of one bucket value (the closure in src/main.rs:89-102):
`val = (num as f64) / (max as f64)`, then
`val == 0.0 → No`, `val < 0.25 → Low`, `val < 0.5 → Mid`, `val < 0.75 → High`,
else `VeryHigh`.

For `mx ≠ 0` the `f64` quotient is modeled by the exact rational
`Rat.divInt num mx` (= `num / mx`): both operands come from `i32`, so
`|num|, |mx| ≤ 2^31`; whenever the exact ratio differs from a cut point
`c ∈ {0, 1/4, 1/2, 3/4}` it differs by at least `1 / (4·2^31) > 2^-33`, while
correctly-rounded `f64` division moves the value by less than `2^-33` near the
cut points, so every comparison in the chain has the same truth value for the
`f64` quotient and the exact rational.

For `mx = 0` the `f64` division yields NaN (`0.0/0.0`) or `+∞` (`num > 0`),
for which all four comparisons are false and the final branch (`VeryHigh`) is
taken, or `-∞` (`num < 0`), for which `val < 0.25` is the first true
comparison (`Low`). -/
def classify (mx num : Int) : CommitFreq :=
  if mx = 0 then
    if num < 0 then CommitFreq.Low else CommitFreq.VeryHigh
  else
    let val : ℚ := Rat.divInt num mx
    if val = 0 then CommitFreq.No
    else if val < Rat.divInt 1 4 then CommitFreq.Low
    else if val < Rat.divInt 1 2 then CommitFreq.Mid
    else if val < Rat.divInt 3 4 then CommitFreq.High
    else CommitFreq.VeryHigh

/-- Embedding of `normalize_commits` (src/main.rs:85-104):
`commits.iter().max().unwrap()` panics (`none`) on an empty vector; otherwise
each entry is classified against the maximum. -/
def normalize_commits (commits : List Int) : Option (List CommitFreq) :=
  match commits.max? with
  | none => none
  | some mx => some (commits.map (fun num => classify mx num))

/-- The `month_week` of `GitCalendar::display` (src/main.rs:142-146):
`if first.day() % 7 == 0 { day / 7 } else { day / 7 + 1 }` on `u32`. -/
def month_week (day : Nat) : Nat :=
  if day % 7 = 0 then day / 7 else day / 7 + 1

/-- The column padding of the first month label (src/main.rs:147):
`" ".repeat(4_usize - month_week as usize)`.  When `month_week > 4` the
`usize` subtraction overflows (a panic in a debug build; in a release build it
wraps and `repeat` aborts on capacity overflow) — modeled as `none`. -/
def month_pad (day : Nat) : Option Nat :=
  if month_week day ≤ 4 then some (4 - month_week day) else none

/-- Specification-side definition: the local calendar day of a timestamp given
as a local-seconds count, i.e. the floor of `ts / 86400` (`Int.ediv`, which is
floor division for a positive divisor). -/
def spec_day_of (ts : Int) : Int := ts / 86400

/-- Specification-side definition: the number of timestamps whose local
calendar day falls within `[window.start, window.end]` inclusive (the spec's
"Bucketizer totals" count), for the window computed from `today`. -/
def spec_inwindow_count (today : Date) (l : List Int) : Option Nat :=
  match first_day today with
  | none => none
  | some st =>
    some (l.countP (fun ts =>
      decide (toOrdinal st ≤ spec_day_of ts ∧ spec_day_of ts ≤ toOrdinal today)))

/-- Specification-side definition, following the spec's classification table
verbatim: with `ratio = v / max` (real-valued), `ratio == 0 → None`;
`0 < ratio < 0.25 → Low`; `0.25 ≤ ratio < 0.5 → Mid`;
`0.5 ≤ ratio < 0.75 → High`; `ratio ≥ 0.75 → VeryHigh`. -/
def spec_level (mx num : Int) : CommitFreq :=
  let ratio : ℚ := Rat.divInt num mx
  if ratio = 0 then CommitFreq.No
  else if 0 < ratio ∧ ratio < Rat.divInt 1 4 then CommitFreq.Low
  else if Rat.divInt 1 4 ≤ ratio ∧ ratio < Rat.divInt 1 2 then CommitFreq.Mid
  else if Rat.divInt 1 2 ≤ ratio ∧ ratio < Rat.divInt 3 4 then CommitFreq.High
  else CommitFreq.VeryHigh

/-- Specification-side definition: `ceil(day / 7)` on naturals. -/
def spec_ceil7 (day : Nat) : Nat := (day + 6) / 7

/-- The number of calendar days in the reporting window,
`(end - start).days + 1` (the `days` count of src/main.rs:128-129, equally
`len + 1` of src/main.rs:70-72). -/
def window_days (today : Date) : Option Int :=
  match first_day today with
  | none => none
  | some st => some (bucket_len today st + 1)

/-! ### Calendar arithmetic lemmas -/

theorem validDate_mk (y : Int) (m d : Nat) :
    validDate ⟨y, m, d⟩ ↔ (1 ≤ m ∧ m ≤ 12 ∧ 1 ≤ d ∧ d ≤ daysInMonth y m) :=
  Iff.rfl

theorem toOrdinal_mk (y : Int) (m d : Nat) :
    toOrdinal ⟨y, m, d⟩
      = daysBeforeYear y + (daysBeforeMonth (isLeap y) m : Int) + (d : Int) :=
  rfl

theorem isLeap_iff (y : Int) :
    isLeap y = true ↔ (y % 4 = 0 ∧ (y % 100 ≠ 0 ∨ y % 400 = 0)) := by
  simp [isLeap]

theorem dby_succ (y : Int) :
    daysBeforeYear (y + 1)
      = daysBeforeYear y
        + (if y % 4 = 0 ∧ (y % 100 ≠ 0 ∨ y % 400 = 0) then 366 else 365) := by
  unfold daysBeforeYear
  rw [show y + 1 - 1 = y from by ring]
  split <;> omega

theorem dby_succ_leap (y : Int) :
    daysBeforeYear (y + 1)
      = daysBeforeYear y + (if isLeap y = true then 366 else 365) := by
  rw [dby_succ]
  congr 1
  by_cases h : isLeap y = true
  · rw [if_pos ((isLeap_iff y).1 h), if_pos h]
  · rw [if_neg (fun hc => h ((isLeap_iff y).2 hc)), if_neg h]

theorem dim_pos (y : Int) (m : Nat) (h1 : 1 ≤ m) (h12 : m ≤ 12) :
    1 ≤ daysInMonth y m := by
  interval_cases m <;> cases h : isLeap y <;> simp [daysInMonth, h]

theorem dbm_dim (y : Int) (m : Nat) (h2 : 2 ≤ m) (h12 : m ≤ 12) :
    daysBeforeMonth (isLeap y) (m - 1) + daysInMonth y (m - 1)
      = daysBeforeMonth (isLeap y) m := by
  interval_cases m <;> cases h : isLeap y <;>
    simp [daysBeforeMonth, daysInMonth, h]

theorem prevDay_spec (dt : Date) (h : validDate dt) :
    validDate (prevDay dt) ∧ toOrdinal (prevDay dt) = toOrdinal dt - 1 := by
  obtain ⟨hm1, hm12, hd1, hdm⟩ := h
  have hdt : toOrdinal dt
      = daysBeforeYear dt.y + (daysBeforeMonth (isLeap dt.y) dt.m : Int)
        + (dt.d : Int) := rfl
  unfold prevDay
  by_cases hd : 2 ≤ dt.d
  · rw [if_pos hd]
    rw [validDate_mk, toOrdinal_mk, hdt]
    exact ⟨⟨hm1, hm12, by omega, by omega⟩, by omega⟩
  · by_cases hm : 2 ≤ dt.m
    · rw [if_neg hd, if_pos hm]
      have hdim := dbm_dim dt.y dt.m hm hm12
      have hpos := dim_pos dt.y (dt.m - 1) (by omega) (by omega)
      rw [validDate_mk, toOrdinal_mk, hdt]
      exact ⟨⟨by omega, by omega, hpos, le_refl _⟩, by omega⟩
    · rw [if_neg hd, if_neg hm]
      have hm' : dt.m = 1 := by omega
      have hd' : dt.d = 1 := by omega
      rw [validDate_mk, toOrdinal_mk, hdt, hm', hd']
      have h1 := dby_succ_leap (dt.y - 1)
      rw [show dt.y - 1 + 1 = dt.y from by ring] at h1
      refine ⟨⟨by omega, by omega, by omega, by simp [daysInMonth]⟩, ?_⟩
      cases hl : isLeap (dt.y - 1) <;>
        simp [hl] at h1 <;> simp [hl, daysBeforeMonth] <;> omega

theorem subDays_spec (k : Nat) (dt : Date) (h : validDate dt) :
    validDate (subDays dt k) ∧ toOrdinal (subDays dt k) = toOrdinal dt - k := by
  induction k generalizing dt with
  | zero => simpa [subDays] using h
  | succ n ih =>
    obtain ⟨hv, ho⟩ := prevDay_spec dt h
    obtain ⟨hv', ho'⟩ := ih (prevDay dt) hv
    refine ⟨hv', ?_⟩
    rw [show subDays dt (n + 1) = subDays (prevDay dt) n from rfl, ho', ho]
    push_cast
    ring

theorem weekdayNum_bounds (dt : Date) :
    0 ≤ weekdayNum dt ∧ weekdayNum dt < 7 := by
  unfold weekdayNum
  omega

theorem first_day_eq (today : Date)
    (h : validDate ⟨today.y - 1, today.m, today.d⟩) :
    ∃ st, first_day today = some st ∧ validDate st ∧
      toOrdinal st = toOrdinal ⟨today.y - 1, today.m, today.d⟩
        - (weekdayNum ⟨today.y - 1, today.m, today.d⟩ + 1) := by
  unfold first_day ymd
  rw [if_pos h]
  refine ⟨_, rfl, (subDays_spec _ _ h).1, ?_⟩
  rw [(subDays_spec _ _ h).2]
  have h0 := weekdayNum_bounds ⟨today.y - 1, today.m, today.d⟩
  omega

theorem year_span (y : Int) (m d : Nat) :
    365 ≤ toOrdinal ⟨y, m, d⟩ - toOrdinal ⟨y - 1, m, d⟩ ∧
      toOrdinal ⟨y, m, d⟩ - toOrdinal ⟨y - 1, m, d⟩ ≤ 366 := by
  rw [toOrdinal_mk, toOrdinal_mk]
  have h1 := dby_succ_leap (y - 1)
  rw [show y - 1 + 1 = y from by ring] at h1
  unfold daysBeforeMonth
  by_cases h3 : 3 ≤ m <;> cases hA : isLeap y <;> cases hB : isLeap (y - 1) <;>
    simp [hB] at h1 <;> simp [hA, hB, h3] <;> omega

theorem tdiv_day (k r : Int) (hk : 0 ≤ k) (h0 : 0 ≤ r) (h1 : r < 86400) :
    Int.tdiv (k * 86400 + r) 86400 = k := by
  rw [Int.tdiv_eq_ediv (by omega) (by omega)]
  omega

theorem first_day_some (today st : Date) (h : first_day today = some st) :
    validDate ⟨today.y - 1, today.m, today.d⟩ ∧
      st = subDays ⟨today.y - 1, today.m, today.d⟩
        ((weekdayNum ⟨today.y - 1, today.m, today.d⟩).toNat + 1) := by
  unfold first_day ymd at h
  by_cases hv : validDate ⟨today.y - 1, today.m, today.d⟩
  · rw [if_pos hv] at h
    simp only [Option.some.injEq] at h
    exact ⟨hv, h.symm⟩
  · rw [if_neg hv] at h
    simp at h

/-! ### Bucket-loop lemmas -/

theorem foldl_bucketStep_none (lastS len : Int) (l : List Int) :
    l.foldl (bucketStep lastS len) none = none := by
  induction l with
  | nil => rfl
  | cons a t ih => simpa [bucketStep] using ih

theorem bucketStep_some (lastS len : Int) (acc : List Int) (a : Int)
    (ret : List Int) (h : bucketStep lastS len (some acc) a = some ret) :
    ret.length = acc.length := by
  unfold bucketStep at h
  simp only at h
  split at h
  · cases h; rfl
  · split at h
    · cases h; simp
    · cases h

theorem foldl_bucketStep_length (lastS len : Int) (l : List Int) :
    ∀ acc ret, l.foldl (bucketStep lastS len) (some acc) = some ret →
      ret.length = acc.length := by
  induction l with
  | nil =>
    intro acc ret h
    cases h
    rfl
  | cons a t ih =>
    intro acc ret h
    rw [List.foldl_cons] at h
    cases hs : bucketStep lastS len (some acc) a with
    | none =>
      rw [hs, foldl_bucketStep_none] at h
      cases h
    | some acc' =>
      rw [hs] at h
      rw [ih acc' ret h, bucketStep_some lastS len acc a acc' hs]

theorem sum_set_getD (l : List Int) (i : Nat) (h : i < l.length) :
    (l.set i (l.getD i 0 + 1)).sum = l.sum + 1 := by
  induction l generalizing i with
  | nil => simp at h
  | cons a t ih =>
    cases i with
    | zero => simp [List.getD]; ring
    | succ n =>
      simp only [List.set_cons_succ, List.sum_cons, List.getD_cons_succ]
      rw [ih n (by simpa using h)]
      ring

theorem diff_eq_day (d1 a : Int) (h : a / 86400 ≤ d1) :
    Int.tdiv (d1 * 86400 + 86399 - a) 86400 = d1 - a / 86400 := by
  rw [show d1 * 86400 + 86399 - a
      = (d1 - a / 86400) * 86400 + (86399 - a % 86400) from by omega]
  exact tdiv_day _ _ (by omega) (by omega) (by omega)

theorem bucket_fold_sum (d1 len : Int) (l : List Int)
    (hts : ∀ ts ∈ l, ts / 86400 ≤ d1) :
    ∀ acc : List Int, acc.length = (len + 1).toNat →
      ∃ ret, l.foldl (bucketStep (d1 * 86400 + 86399) len) (some acc) = some ret ∧
        ret.length = acc.length ∧
        ret.sum = acc.sum
          + (l.countP (fun ts => decide (d1 - len < ts / 86400)) : Int) := by
  induction l with
  | nil =>
    intro acc ha
    exact ⟨acc, rfl, rfl, by simp⟩
  | cons a t ih =>
    intro acc ha
    have hday := hts a (by simp)
    have htr : ∀ ts ∈ t, ts / 86400 ≤ d1 := fun ts hm => hts ts (by simp [hm])
    have hdiff := diff_eq_day d1 a hday
    rw [List.foldl_cons]
    by_cases hk : len ≤ d1 - a / 86400
    · have hstep : bucketStep (d1 * 86400 + 86399) len (some acc) a = some acc := by
        unfold bucketStep
        simp only
        rw [hdiff, if_pos hk]
      rw [hstep]
      obtain ⟨ret, h1, h2, h3⟩ := ih htr acc ha
      refine ⟨ret, h1, h2, ?_⟩
      rw [h3, List.countP_cons]
      rw [decide_eq_false (by omega : ¬ d1 - len < a / 86400)]
      simp
    · have hidx0 : 0 ≤ len - (d1 - a / 86400) := by omega
      have hidxlt : (len - (d1 - a / 86400)).toNat < acc.length := by omega
      have hstep : bucketStep (d1 * 86400 + 86399) len (some acc) a
          = some (acc.set (len - (d1 - a / 86400)).toNat
              (acc.getD (len - (d1 - a / 86400)).toNat 0 + 1)) := by
        unfold bucketStep
        simp only
        rw [hdiff, if_neg hk, if_pos ⟨hidx0, hidxlt⟩]
      rw [hstep]
      obtain ⟨ret, h1, h2, h3⟩ :=
        ih htr (acc.set (len - (d1 - a / 86400)).toNat
          (acc.getD (len - (d1 - a / 86400)).toNat 0 + 1)) (by simpa using ha)
      refine ⟨ret, h1, by simpa using h2, ?_⟩
      rw [h3, sum_set_getD acc _ hidxlt, List.countP_cons]
      rw [decide_eq_true (by omega : d1 - len < a / 86400)]
      simp
      omega

/-! ### Window-length and normalization lemmas -/

theorem toOrdinal_eta (today : Date) :
    toOrdinal today = toOrdinal ⟨today.y, today.m, today.d⟩ := rfl

theorem window_len_eq (today st : Date)
    (h2 : validDate ⟨today.y - 1, today.m, today.d⟩)
    (hf : first_day today = some st) :
    bucket_len today st = toOrdinal today - toOrdinal st ∧
      366 ≤ toOrdinal today - toOrdinal st ∧
      toOrdinal today - toOrdinal st ≤ 373 := by
  obtain ⟨st', he, hval, hord⟩ := first_day_eq today h2
  rw [hf] at he
  cases he
  have hwd := weekdayNum_bounds ⟨today.y - 1, today.m, today.d⟩
  have hspan := year_span today.y today.m today.d
  rw [← toOrdinal_eta] at hspan
  have hbounds : 366 ≤ toOrdinal today - toOrdinal st ∧
      toOrdinal today - toOrdinal st ≤ 373 := by omega
  refine ⟨?_, hbounds⟩
  unfold bucket_len lastSec firstSec
  rw [show toOrdinal today * 86400 + 86399 - toOrdinal st * 86400
      = (toOrdinal today - toOrdinal st) * 86400 + 86399 from by ring]
  exact tdiv_day _ _ (by omega) (by omega) (by omega)

theorem classify_eq_spec_level (mx v : Int) (hmx : 0 < mx) (hv : 0 ≤ v) :
    classify mx v = spec_level mx v := by
  unfold classify spec_level
  rw [if_neg (by omega : ¬ mx = 0)]
  have hq : (0 : ℚ) ≤ Rat.divInt v mx := by
    rw [Rat.divInt_eq_div]
    have h1 : (0 : ℚ) ≤ (v : ℚ) := by exact_mod_cast hv
    have h2 : (0 : ℚ) ≤ (mx : ℚ) := by exact_mod_cast hmx.le
    exact div_nonneg h1 h2
  by_cases h0 : Rat.divInt v mx = 0
  · rw [if_pos h0, if_pos h0]
  · rw [if_neg h0, if_neg h0]
    have h0' : 0 < Rat.divInt v mx := lt_of_le_of_ne hq (Ne.symm h0)
    by_cases hA : Rat.divInt v mx < Rat.divInt 1 4
    · rw [if_pos hA, if_pos ⟨h0', hA⟩]
    · rw [if_neg hA,
        if_neg (fun hc : 0 < Rat.divInt v mx ∧ Rat.divInt v mx < Rat.divInt 1 4
          => hA hc.2)]
      have hge : Rat.divInt 1 4 ≤ Rat.divInt v mx := not_lt.1 hA
      by_cases hB : Rat.divInt v mx < Rat.divInt 1 2
      · rw [if_pos hB, if_pos ⟨hge, hB⟩]
      · rw [if_neg hB,
          if_neg (fun hc : Rat.divInt 1 4 ≤ Rat.divInt v mx
              ∧ Rat.divInt v mx < Rat.divInt 1 2 => hB hc.2)]
        have hge2 : Rat.divInt 1 2 ≤ Rat.divInt v mx := not_lt.1 hB
        by_cases hC : Rat.divInt v mx < Rat.divInt 3 4
        · rw [if_pos hC, if_pos ⟨hge2, hC⟩]
        · rw [if_neg hC,
            if_neg (fun hc : Rat.divInt 1 2 ≤ Rat.divInt v mx
                ∧ Rat.divInt v mx < Rat.divInt 3 4 => hC hc.2)]

/-! ### Claim theorems -/

/-- Claim C1, counterexample: on the all-zero bucket sequence `[0, 0, 0]`
(max 0), `normalize_commits` does NOT return `None` for every entry — the
`0.0/0.0` division yields NaN, every threshold comparison is false, and the
final `VeryHigh` branch is taken. -/
theorem normalize_allzero_cex :
    ¬ (normalize_commits [0, 0, 0]
        = some [CommitFreq.No, CommitFreq.No, CommitFreq.No]) := by decide

/-- Claim C1 (amended): for every bucket sequence of non-negative counts whose
maximum value is 0 (in particular the all-zero sequence produced by an empty
timestamp list), `normalize_commits` returns `VeryHigh` (not `None`) for every
entry, without any fault: the `f64` division `0.0/0.0` is NaN, all four
comparisons on it are false, and control falls to the final branch. -/
theorem normalize_zero_max (l : List Int) (hmx : l.max? = some 0)
    (hnn : ∀ v ∈ l, 0 ≤ v) :
    normalize_commits l = some (l.map (fun _ => CommitFreq.VeryHigh)) := by
  unfold normalize_commits
  rw [hmx]
  have hcl : ∀ v ∈ l, classify 0 v = CommitFreq.VeryHigh := by
    intro v hv
    have h := hnn v hv
    unfold classify
    rw [if_pos rfl, if_neg (by omega : ¬ v < 0)]
  simp only [List.map_congr_left hcl]

/-- Witness for C1's amended theorem at the concrete all-zero input `[0, 0]`. -/
theorem normalize_zero_max_witness :
    normalize_commits [0, 0]
      = some (List.map (fun _ => CommitFreq.VeryHigh) ([0, 0] : List Int)) :=
  normalize_zero_max [0, 0] (by decide) (by decide)

set_option maxRecDepth 8000 in
/-- Claim C2 (code bug): a timestamp whose local day is strictly after
`window.end` is NOT silently dropped.  With `today = 2024-03-05` (start day
738577 = 2023-02-26, end day 738950, `len = 373`): a timestamp at 00:00:00 of
day 738951 (= end + 1 day) gives `diff = tdiv (-1) 86400 = 0 < len` and is
counted into the last bucket (total sum 1, though the in-window count is 0);
a timestamp at 23:59:59 of that day gives `diff = -1`, index `len + 1 = 374`,
and the vector indexing panics (out of bounds). -/
theorem bucketize_future_timestamp :
    (count_commits_per_day ⟨2024, 3, 5⟩ [738951 * 86400]).map List.sum
        = some 1 ∧
      count_commits_per_day ⟨2024, 3, 5⟩ [738951 * 86400 + 86399] = none ∧
      spec_inwindow_count ⟨2024, 3, 5⟩ [738951 * 86400] = some 0 := by decide

set_option maxRecDepth 8000 in
/-- Claim C3, counterexample: a single timestamp at noon of the window's
start day (day 738577 = 2023-02-26 for `today = 2024-03-05`) is in-window
(`spec_inwindow_count` = 1) but the bucket sums to 0: `diff = len` and the
`diff >= len` test discards it, so the claimed equality of the bucket sum with
the in-window count fails. -/
theorem bucketize_sum_cex :
    ¬ ((count_commits_per_day ⟨2024, 3, 5⟩ [738577 * 86400 + 43200]).map
          List.sum
        = (spec_inwindow_count ⟨2024, 3, 5⟩ [738577 * 86400 + 43200]).map
            (fun n => (n : Int))) := by decide

/-- Claim C3 (amended): provided no timestamp's local day falls after
`window.end` (such timestamps are miscounted into the last bucket or fault,
see C2), the sum of the bucket counts equals the number of timestamps whose
local day falls within `[window.start + 1, window.end]` — timestamps on the
start day itself are dropped by the `diff >= len` test, so the half-open
window replaces the claimed closed `[start, end]`.  Multiple
timestamps on the same local day accumulate in one bucket (the count is the
full tally of such timestamps). -/
theorem bucketize_sum (today : Date) (l : List Int)
    (h2 : validDate ⟨today.y - 1, today.m, today.d⟩)
    (hts : ∀ ts ∈ l, spec_day_of ts ≤ toOrdinal today) :
    ∃ st ret, first_day today = some st ∧
      count_commits_per_day today l = some ret ∧
      ret.sum = (l.countP (fun ts =>
        decide (toOrdinal st < spec_day_of ts ∧
          spec_day_of ts ≤ toOrdinal today)) : Int) := by
  obtain ⟨st, hf, hval, hord⟩ := first_day_eq today h2
  obtain ⟨hbl, hge, hle⟩ := window_len_eq today st h2 hf
  refine ⟨st, ?_⟩
  unfold count_commits_per_day
  rw [hf]
  simp only
  unfold bucket_len at hbl
  rw [hbl]
  unfold lastSec
  unfold spec_day_of at hts ⊢
  obtain ⟨ret, hfold, hlen, hsum⟩ :=
    bucket_fold_sum (toOrdinal today) (toOrdinal today - toOrdinal st) l hts
      (List.replicate ((toOrdinal today - toOrdinal st) + 1).toNat 0) (by simp)
  refine ⟨ret, trivial, hfold, ?_⟩
  rw [hsum]
  have hc : ∀ ts ∈ l,
      decide (toOrdinal today - (toOrdinal today - toOrdinal st) < ts / 86400)
          = true
        ↔ decide (toOrdinal st < ts / 86400 ∧ ts / 86400 ≤ toOrdinal today)
          = true := by
    intro ts hm
    have hts' := hts ts hm
    simp only [decide_eq_true_eq]
    omega
  rw [List.countP_congr hc]
  simp

/-- Witness for C3's amended theorem: `today = 2024-03-05` and a single
timestamp at noon of 2024-03-01 (day 738946, inside the window). -/
theorem bucketize_sum_witness :
    ∃ st ret, first_day ⟨2024, 3, 5⟩ = some st ∧
      count_commits_per_day ⟨2024, 3, 5⟩ [738946 * 86400 + 43200] = some ret ∧
      ret.sum = (([738946 * 86400 + 43200] : List Int).countP (fun ts =>
        decide (toOrdinal st < spec_day_of ts ∧
          spec_day_of ts ≤ toOrdinal ⟨2024, 3, 5⟩)) : Int) :=
  bucketize_sum ⟨2024, 3, 5⟩ [738946 * 86400 + 43200] (by decide) (by decide)

/-- Claim C4: whenever the window computation succeeds, its start date falls
on weekday index 0 under the Sunday-is-index-0 convention — it is a Sunday
(equivalently, chrono weekday discriminant 6).  This holds for every current
local date, leap years included. -/
theorem window_start_weekday (today st : Date)
    (h : first_day today = some st) :
    spec_weekday_sun st = 0 ∧ weekdayNum st = 6 := by
  obtain ⟨hval, hst⟩ := first_day_some today st h
  have hs := subDays_spec
    ((weekdayNum ⟨today.y - 1, today.m, today.d⟩).toNat + 1)
    ⟨today.y - 1, today.m, today.d⟩ hval
  rw [← hst] at hs
  obtain ⟨-, hord⟩ := hs
  unfold spec_weekday_sun
  unfold weekdayNum at hord ⊢
  omega

/-- Witness for C4 at `today = 2024-03-05`: the computed start 2023-02-26 is
a Sunday. -/
theorem window_start_weekday_witness :
    spec_weekday_sun ⟨2023, 2, 26⟩ = 0 ∧ weekdayNum ⟨2023, 2, 26⟩ = 6 :=
  window_start_weekday ⟨2024, 3, 5⟩ ⟨2023, 2, 26⟩ (by decide)

/-- Claim C5, counterexample: on buckets `[0, 1, 2, 3, 4]` the output is NOT
`[None, Low, Mid, Mid, VeryHigh]` — ratio 0.25 is not `< 0.25` so it falls in
the `Mid` branch, 0.5 in `High`, 0.75 in `VeryHigh`. -/
theorem normalize_boundary_cex :
    ¬ (normalize_commits [0, 1, 2, 3, 4]
        = some [CommitFreq.No, CommitFreq.Low, CommitFreq.Mid, CommitFreq.Mid,
            CommitFreq.VeryHigh]) := by decide

/-- Claim C5 (amended): `normalize_commits [0, 1, 2, 3, 4]` (max 4, ratios
0, 0.25, 0.5, 0.75, 1.0) is exactly `[None, Mid, High, VeryHigh, VeryHigh]`,
per the code's half-open boundaries (0.25 → Mid, 0.5 → High,
0.75 → VeryHigh). -/
theorem normalize_boundary :
    normalize_commits [0, 1, 2, 3, 4]
      = some [CommitFreq.No, CommitFreq.Mid, CommitFreq.High,
          CommitFreq.VeryHigh, CommitFreq.VeryHigh] := by decide

/-- Claim C6: for every bucket sequence of non-negative counts whose maximum
`mx` is strictly positive, `normalize_commits` succeeds and classifies each
value `v` by the exact ratio `v / mx` according to the spec's table
(`spec_level`): ratio 0 → None, (0, 1/4) → Low, [1/4, 1/2) → Mid,
[1/2, 3/4) → High, [3/4, ∞) → VeryHigh; the output is the `map` of the input,
hence has the same length and order. -/
theorem normalize_matches_spec (l : List Int) (mx : Int)
    (hmx : l.max? = some mx) (hpos : 0 < mx) (hnn : ∀ v ∈ l, 0 ≤ v) :
    ∃ out, normalize_commits l = some out ∧ out.length = l.length ∧
      out = l.map (spec_level mx) := by
  refine ⟨l.map (fun num => classify mx num), ?_, by simp, ?_⟩
  · unfold normalize_commits
    rw [hmx]
  · exact List.map_congr_left fun v hv =>
      classify_eq_spec_level mx v hpos (hnn v hv)

/-- Witness for C6 at the concrete buckets `[0, 1, 2]` with maximum 2. -/
theorem normalize_matches_spec_witness :
    ∃ out, normalize_commits [0, 1, 2] = some out ∧
      out.length = ([0, 1, 2] : List Int).length ∧
      out = ([0, 1, 2] : List Int).map (spec_level 2) :=
  normalize_matches_spec [0, 1, 2] 2 (by decide) (by decide) (by decide)

/-- Claim C7 (code bug): the window computation is not fault-free on every
current date.  2024-02-29 is a valid current local date (2024 is a leap
year), but `Local.ymd(2023, 2, 29)` inside `first_day` is an invalid civil
date, on which chrono's `ymd` panics. -/
theorem first_day_feb29 :
    validDate ⟨2024, 2, 29⟩ ∧ first_day ⟨2024, 2, 29⟩ = none := by decide

/-- Claim C8, counterexample: for `today = 2024-03-05` the window spans 374
calendar days — outside the claimed interval [365, 372].  (2023-03-05 is a
Sunday, so `first_day` steps a full 7 days back, and the year span contains
the leap day 2024-02-29.) -/
theorem window_days_cex :
    window_days ⟨2024, 3, 5⟩ = some 374 ∧
      ¬ (365 ≤ (374 : Int) ∧ (374 : Int) ≤ 372) := by decide

/-- Claim C8 (amended): whenever the window computation succeeds, the number
of calendar days in the window, `(end - start).days + 1`, is between 367 and
374 inclusive: 365 or 366 days of year span (leap years) plus 1–7 days of
week-alignment slack plus the inclusive end day. -/
theorem window_days_range (today : Date)
    (h2 : validDate ⟨today.y - 1, today.m, today.d⟩) :
    ∃ st w, first_day today = some st ∧ window_days today = some w ∧
      367 ≤ w ∧ w ≤ 374 := by
  obtain ⟨st, hf, hval, hord⟩ := first_day_eq today h2
  obtain ⟨hbl, hge, hle⟩ := window_len_eq today st h2 hf
  refine ⟨st, bucket_len today st + 1, hf, ?_, by omega, by omega⟩
  unfold window_days
  rw [hf]

/-- Witness for C8's amended theorem at `today = 2024-03-05`. -/
theorem window_days_range_witness :
    ∃ st w, first_day ⟨2024, 3, 5⟩ = some st ∧
      window_days ⟨2024, 3, 5⟩ = some w ∧ 367 ≤ w ∧ w ≤ 374 :=
  window_days_range ⟨2024, 3, 5⟩ (by decide)

/-- Claim C9, counterexample: the first-label offset computation is NOT
well-defined for every day-of-month the window start can take.  For
`today = 2024-07-31` the start is 2023-07-30 (2023-07-31 is a Monday, one day
is subtracted), whose day-of-month 30 gives `month_week = 5`, and
`4_usize - 5` overflows — a fault. -/
theorem month_pad_fault :
    validDate ⟨2024, 7, 31⟩ ∧ first_day ⟨2024, 7, 31⟩ = some ⟨2023, 7, 30⟩ ∧
      month_pad 30 = none := by decide

/-- Claim C9 (amended): for a start day-of-month `day` (1 ≤ day ≤ 31), the
display computes the first month label's offset as `4 - ceil(day / 7)` when
`ceil(day / 7) ≤ 4`, i.e. when `day ≤ 28`; for `day ≥ 29` the `usize`
subtraction `4 - 5` overflows and the program faults. -/
theorem month_pad_eq (day : Nat) (h1 : 1 ≤ day) (h31 : day ≤ 31) :
    month_pad day
      = if day ≤ 28 then some (4 - spec_ceil7 day) else none := by
  interval_cases day <;> decide

/-- Witness for C9's amended theorem at day-of-month 15. -/
theorem month_pad_eq_witness :
    month_pad 15 = if 15 ≤ 28 then some (4 - spec_ceil7 15) else none :=
  month_pad_eq 15 (by decide) (by decide)

/-- Claim C10: whenever `count_commits_per_day` returns (does not panic), the
returned vector has length `(end - start).days + 1` (= `bucket_len + 1`),
which is at least 1 — never empty — and therefore the unguarded
`max().unwrap()` at the start of `normalize_commits` cannot fault when
composed after it in the pipeline. -/
theorem bucketize_feeds_normalize (today : Date) (l ret : List Int)
    (h : count_commits_per_day today l = some ret) :
    ∃ st, first_day today = some st ∧
      (ret.length : Int) = bucket_len today st + 1 ∧
      1 ≤ ret.length ∧ normalize_commits ret ≠ none := by
  unfold count_commits_per_day at h
  cases hf : first_day today with
  | none =>
    rw [hf] at h
    simp at h
  | some st =>
    rw [hf] at h
    simp only at h
    have hval := (first_day_some today st hf).1
    obtain ⟨hbl, hge, hle⟩ := window_len_eq today st hval hf
    have hbl' := hbl
    unfold bucket_len at hbl'
    rw [hbl'] at h
    have hlen := foldl_bucketStep_length _ _ l _ ret h
    rw [List.length_replicate] at hlen
    refine ⟨st, rfl, by omega, by omega, ?_⟩
    cases hrr : ret with
    | nil =>
      rw [hrr] at hlen
      simp at hlen
      omega
    | cons b bs =>
      simp [normalize_commits, List.max?]

/-- Witness for C10 at `today = 2024-03-05` with the empty timestamp list,
whose bucket vector is 374 zeros. -/
theorem bucketize_feeds_normalize_witness :
    ∃ st, first_day ⟨2024, 3, 5⟩ = some st ∧
      ((List.replicate 374 (0 : Int)).length : Int)
          = bucket_len ⟨2024, 3, 5⟩ st + 1 ∧
      1 ≤ (List.replicate 374 (0 : Int)).length ∧
      normalize_commits (List.replicate 374 (0 : Int)) ≠ none :=
  bucketize_feeds_normalize ⟨2024, 3, 5⟩ [] (List.replicate 374 0)
    (by set_option maxRecDepth 8000 in decide)

